import Mathlib

/-
Verification of the Cluster-Images repository's core parsing and
aggregation logic, as a shallow embedding in Lean 4.

The embedded code:
  * `parse_crictl_images_output` — the columnar text parser for the
    output of the external `crictl images` command
    (src/server/app/image_api.py, identical logic in src/image_api.py);
  * `get_harbor_paginated_results` — the paginated Harbor listing
    fetcher (src/harbor_api.py);
  * `get_harbor_images` — the hierarchical projects → repositories →
    artifacts → tags aggregator (src/harbor_image_api.py).

Python strings are modelled as Lean `String` (character-based, as
Python's `str` indexing/slicing is character-based); Python's `None`-or-
list return convention is modelled with `Option`; raised exceptions are
modelled with explicit error results; text lines are obtained by
splitting on the newline character (the reference texts use plain
newlines).
-/

set_option autoImplicit false

namespace ClusterImages

/-! ### Python string primitives used by the sources -/

/-- Python's whitespace test used by `str.strip` (ASCII whitespace). -/
def pyIsSpace (c : Char) : Bool :=
  c = ' ' || c = '\t' || c = '\n' || c = '\r' || c = '\x0b' || c = '\x0c'

/-- `str.strip()` on a character list: remove leading and trailing
whitespace. -/
def pyStripList (cs : List Char) : List Char :=
  ((cs.dropWhile pyIsSpace).reverse.dropWhile pyIsSpace).reverse

/-- Python `s.strip()`. -/
def pyStrip (s : String) : String :=
  String.mk (pyStripList s.toList)

/-- Helper for `pySplitLines`: split the remaining characters at each
newline, `acc` holding the current line reversed. -/
def pySplitLinesAux : List Char → List Char → List String
  | [], acc => [String.mk acc.reverse]
  | c :: cs, acc =>
    if c = '\n' then
      String.mk acc.reverse ::
        (match cs with
         | [] => []
         | _ :: _ => pySplitLinesAux cs [])
    else pySplitLinesAux cs (c :: acc)

/-- Python `s.splitlines()` for newline-separated text: the empty string
yields no lines, and a trailing newline does not yield a trailing empty
line. -/
def pySplitLines (s : String) : List String :=
  match s.toList with
  | [] => []
  | cs => pySplitLinesAux cs []

/-- Python slice `s[:b]` (upper bound clamps to the length). -/
def pySliceTo (s : String) (b : Nat) : String :=
  String.mk (s.toList.take b)

/-- Python slice `s[a:]` (lower bound clamps to the length). -/
def pySliceFrom (s : String) (a : Nat) : String :=
  String.mk (s.toList.drop a)

/-- Python slice `s[a:b]` with non-negative bounds; both bounds clamp to
the length of the string, and `b < a` gives the empty string. -/
def pySlice (s : String) (a b : Nat) : String :=
  String.mk ((s.toList.take b).drop a)

/-- Helper for `pyFind`: first index at which `needle` occurs in the
remaining character list, counting from `i`. -/
def pyFindAux (needle : List Char) : List Char → Nat → Option Nat
  | [], i => if needle = [] then some i else none
  | c :: cs, i =>
    if needle.isPrefixOf (c :: cs) then some i else pyFindAux needle cs (i + 1)

/-- Python `s.find(sub)`: character index of the first occurrence of
`sub` in `s`, or `none` where Python returns `-1`. -/
def pyFind (s sub : String) : Option Nat :=
  pyFindAux sub.toList s.toList 0

/-! ### The crictl columnar text parser
(src/server/app/image_api.py, `parse_crictl_images_output`, lines 84–157;
the variant in src/image_api.py lines 239–312 has identical logic, with
the ignore set taken from a module-level variable). -/

/-- One parsed row of `crictl images` output (the dict appended to
`images` in the source). -/
structure CrictlImage where
  repository : String
  tag : String
  image_id : String
  size : String
  deriving Repr, DecidableEq

/-- The per-line body of the parsing loop, as an `Option`: `none` when
the loop body hits a `continue` (blank line, or ignored image id),
`some` of the record appended otherwise.  `t`, `i`, `s` are the header
offsets of "TAG", "IMAGE ID" and "SIZE". -/
def parseLine (t i s : Nat) (ignored : List String) (line : String) :
    Option CrictlImage :=
  let str := pyStrip line
  if str = "" then none
  else
    let repo := pyStrip (pySliceTo str t)
    let tag0 := pyStrip (pySlice str t i)
    let image_id := pyStrip (pySlice str i s)
    let size := pyStrip (pySliceFrom str s)
    let tag := if tag0 = "" then "<none>" else tag0
    if image_id ∈ ignored then none
    else some ⟨repo, tag, image_id, size⟩

/-- The data-line loop of `parse_crictl_images_output` (`for i, line_str
in enumerate(lines[1:])`), building the `images` list in order. -/
def parseDataLines (t i s : Nat) (ignored : List String) :
    List String → List CrictlImage
  | [] => []
  | line :: rest =>
    match parseLine t i s ignored line with
    | none => parseDataLines t i s ignored rest
    | some rec => rec :: parseDataLines t i s ignored rest

/-- `output.strip().splitlines()` of the source, for newline-separated
text. -/
def crictlLines (output : String) : List String :=
  pySplitLines (pyStrip output)

/-- The body of `parse_crictl_images_output` after line splitting: fewer
than two lines give an empty result; the header offsets of the three
labels must all exist and be strictly increasing, else the result is
empty; otherwise the data lines are parsed. -/
def parseFromLines (ignored : List String) : List String → List CrictlImage
  | [] => []
  | [_] => []
  | header :: l :: ls =>
    match pyFind header "TAG", pyFind header "IMAGE ID", pyFind header "SIZE" with
    | some t, some i, some s =>
      if t < i ∧ i < s then parseDataLines t i s ignored (l :: ls)
      else []
    | _, _, _ => []

/-- `parse_crictl_images_output(output, ignored_image_ids)`
(src/server/app/image_api.py lines 84–157). -/
def parse_crictl_images_output (output : String) (ignored : List String) :
    List CrictlImage :=
  parseFromLines ignored (crictlLines output)

/-! ### Further Python string primitives used by the Harbor sources -/

/-- Helper for `pyReplaceList`: each step consumes at least one
character, so a fuel equal to the input length is enough. -/
def pyReplaceListAux (pat sub : List Char) : Nat → List Char → List Char
  | 0, cs => cs
  | fuel + 1, cs =>
    match cs with
    | [] => []
    | c :: rest =>
      if pat ≠ [] ∧ pat.isPrefixOf (c :: rest) then
        sub ++ pyReplaceListAux pat sub fuel (rest.drop (pat.length - 1))
      else
        c :: pyReplaceListAux pat sub fuel rest

/-- Python `s.replace(old, new)` on character lists, replacing every
occurrence from the left (all patterns used by the sources are
non-empty). -/
def pyReplaceList (cs pat sub : List Char) : List Char :=
  pyReplaceListAux pat sub cs.length cs

/-- Python `s.replace(old, new)`. -/
def pyReplace (s pat sub : String) : String :=
  String.mk (pyReplaceList s.toList pat.toList sub.toList)

/-- Helper for `pySplitOnce`: the characters before and after the first
occurrence of `sep`, if any. -/
def splitFirstAux : List Char → Char → Option (List Char × List Char)
  | [], _ => none
  | c :: cs, sep =>
    if c = sep then some ([], cs)
    else (splitFirstAux cs sep).map (fun p => (c :: p.1, p.2))

/-- Python `s.split(sep, 1)` for a one-character separator: a one- or
two-element list. -/
def pySplitOnce (s : String) (sep : Char) : List String :=
  match splitFirstAux s.toList sep with
  | none => [s]
  | some (a, b) => [String.mk a, String.mk b]

/-- The UTF-8 encoding of one character, as byte values. -/
def utf8Bytes (c : Char) : List Nat :=
  let n := c.toNat
  if n < 128 then [n]
  else if n < 2048 then [192 + n / 64, 128 + n % 64]
  else if n < 65536 then [224 + n / 4096, 128 + (n / 64) % 64, 128 + n % 64]
  else [240 + n / 262144, 128 + (n / 4096) % 64, 128 + (n / 64) % 64, 128 + n % 64]

/-- Upper-case hexadecimal digit for a value below 16. -/
def hexUpper (n : Nat) : Char :=
  if n < 10 then Char.ofNat (48 + n) else Char.ofNat (55 + n)

/-- `urllib.parse.quote_plus` applied to one UTF-8 byte: unreserved
ASCII characters stand for themselves, a space becomes `+`, and every
other byte becomes `%XX`. -/
def quotePlusByte (n : Nat) : List Char :=
  if (65 ≤ n ∧ n ≤ 90) ∨ (97 ≤ n ∧ n ≤ 122) ∨ (48 ≤ n ∧ n ≤ 57) ∨
      n = 45 ∨ n = 46 ∨ n = 95 ∨ n = 126 then
    [Char.ofNat n]
  else if n = 32 then ['+']
  else '%' :: [hexUpper (n / 16), hexUpper (n % 16)]

/-- `urllib.parse.quote_plus(s)` with default safe characters. -/
def quote_plus (s : String) : String :=
  String.mk ((s.toList.flatMap utf8Bytes).flatMap quotePlusByte)

/-! ### JSON values and Python truthiness -/

/-- Decoded JSON bodies, as returned by `response.json()`. -/
inductive Json where
  | jnull
  | jbool (b : Bool)
  | jnum (n : Int)
  | jstr (s : String)
  | jarr (items : List Json)
  | jobj (fields : List (String × Json))

/-- Python `dict.get(key)` on an object's field list (keys are unique in
a decoded JSON object, so first match suffices). -/
def jLookup : List (String × Json) → String → Option Json
  | [], _ => none
  | (k, v) :: rest, key => if k = key then some v else jLookup rest key

/-- Python truthiness of a decoded JSON value. -/
def Json.truthy : Json → Bool
  | .jnull => false
  | .jbool b => b
  | .jnum n => n != 0
  | .jstr s => s ≠ ""
  | .jarr items => !items.isEmpty
  | .jobj fields => !fields.isEmpty

/-- Python `==` between a JSON value and a `str`: string equality when
the value is a string, `False` otherwise. -/
def Json.eqStr : Json → String → Bool
  | .jstr s, t => s = t
  | _, _ => false

/-! ### The paginated fetcher
(src/harbor_api.py, `get_harbor_paginated_results`, lines 22–83).

The HTTP layer is a collaborator: it is modelled as a function from the
page number to the outcome of `requests.get` + `raise_for_status` +
`.json()`.  The caller's query-parameter dict is mutated in place by the
source, so the model returns its final contents, together with the
contents it had on each request issued (the observable request trace).
The `while True` loop has no iteration bound in the source, so the model
takes a fuel argument and returns `none` when the fuel is exhausted with
the loop still running. -/

/-- A query-parameter value (the sources use strings and integers). -/
inductive PVal where
  | pstr (s : String)
  | pnat (n : Nat)
  deriving Repr, DecidableEq

/-- A query-parameter dict, in insertion order. -/
abbrev Params := List (String × PVal)

/-- Python `d[k] = v`: replace in place if the key exists, else append. -/
def dictSet : Params → String → PVal → Params
  | [], k, v => [(k, v)]
  | (k', v') :: rest, k, v =>
    if k' = k then (k, v) :: rest else (k', v') :: dictSet rest k v

/-- Python `d.get(k)` on a parameter dict. -/
def pLookup : Params → String → Option PVal
  | [], _ => none
  | (k', v) :: rest, k => if k' = k then some v else pLookup rest k

/-- Outcome of one HTTP page request, after `raise_for_status` and
`.json()`. -/
inductive HttpResult where
  | httpErr            -- requests.exceptions.RequestException (connection error, timeout, non-2xx)
  | jsonErr            -- ValueError while decoding the body
  | ok (body : Json)   -- decoded JSON body

/-- Page decoding of src/harbor_api.py lines 54–61: a list body is the
page's items; otherwise the `data` key of an object body must hold a
list (`page_data.get('data', page_data)` falls back to the object
itself, which is not a list); any other body makes `page_data.get`
raise, which the blanket handler turns into a failure.  `none` is the
`return None` failure. -/
def extractItems : Json → Option (List Json)
  | .jarr items => some items
  | .jobj fields =>
    match jLookup fields "data" with
    | some (Json.jarr items) => some items
    | _ => none
  | _ => none

/-- What `get_harbor_paginated_results` leaves behind: the returned
value (`none` models Python's `None` failure return), the caller's
parameter dict as mutated in place, and the parameter dict contents sent
on each request. -/
structure FetchResult where
  outcome : Option (List Json)
  finalParams : Params
  requests : List Params

/-- `page_size = 100  # Harbor's maximum page size` (src/harbor_api.py
line 39). -/
def harborApiPageSize : Nat := 100

/-- The `while True` loop of `get_harbor_paginated_results`
(src/harbor_api.py lines 44–79), with fuel; `none` means the fuel ran
out with the loop still running. -/
def fetchLoop (server : Nat → HttpResult) (pageSize : Nat) :
    Nat → Nat → Params → List Json → List Params → Option FetchResult
  | 0, _, _, _, _ => none
  | fuel + 1, page, params, results, reqs =>
    let params' := dictSet (dictSet params "page" (.pnat page)) "page_size" (.pnat pageSize)
    let reqs' := reqs ++ [params']
    match server page with
    | .httpErr => some ⟨none, params', reqs'⟩
    | .jsonErr => some ⟨none, params', reqs'⟩
    | .ok body =>
      match extractItems body with
      | none => some ⟨none, params', reqs'⟩
      | some cur =>
        let results' := results ++ cur
        if cur.length < pageSize then some ⟨some results', params', reqs'⟩
        else fetchLoop server pageSize fuel (page + 1) params' results' reqs'

/-- `get_harbor_paginated_results(url, auth, params, verify_ssl)`
(src/harbor_api.py lines 22–83): page numbering starts at 1, an absent
`params` argument starts from an empty dict. -/
def get_harbor_paginated_results (server : Nat → HttpResult)
    (params : Option Params) (fuel : Nat) : Option FetchResult :=
  fetchLoop server harborApiPageSize fuel 1 (params.getD []) [] []

/-- A fake paginated listing endpoint serving the given pages in order
and empty pages past the end. -/
def mkServer (pages : List (List Json)) : Nat → HttpResult :=
  fun page => .ok (Json.jarr (pages.getD (page - 1) []))

/-! ### The hierarchical aggregator
(src/harbor_image_api.py, `get_harbor_images`, lines 55–166).

The three fetches it performs are collaborators, modelled as an
environment: the outcome of the projects fetch, and of the repositories
and artifacts fetches keyed by the values interpolated into their URLs.
The fetcher variant it calls (src/harbor_image_api.py lines 16–52)
re-raises every `RequestException` and `ValueError`, so a fetch outcome
is either the combined item list or a raised exception.  Of the
source's logger calls, the model records those that report a per-unit
anomaly (skipped unnamed project/repository, skipped null or unnamed
tag, empty derived repository name, and the three artifact-fetch
handlers); purely narrative debug/info logs and the name-derivation
success/fallback logs are not modelled. -/

/-- An exception raised by a fetch. -/
inductive FetchExc where
  | httpStatus (code : Nat)  -- requests.exceptions.HTTPError with this response status
  | requestErr               -- another requests.exceptions.RequestException
  | valueErr                 -- ValueError (JSON decoding)
  deriving Repr, DecidableEq

/-- The registry as seen through the three fetch call sites. -/
structure HarborEnv where
  projects : Except FetchExc (List Json)
  repositories : Json → Except FetchExc (List Json)
  artifacts : Json → String → Except FetchExc (List Json)

/-- Log levels of the Python logging module. -/
inductive LogLevel where
  | debug
  | info
  | warning
  | error
  deriving Repr, DecidableEq

/-- The per-unit log records of `get_harbor_images`. -/
inductive LogEvent where
  | unnamedProject (project : Json)
  | unnamedRepository (projectName : Json) (repo : Json)
  | emptyActualName (fullRepoName : String)
  | nullTag (fullRepoName : String) (tagInfo : Json)
  | artifactsNotFound (fullRepoName : String)
  | artifactsHttp (fullRepoName : String) (code : Nat)
  | artifactsGeneric (fullRepoName : String)

/-- The level each event is logged at in the source. -/
def LogEvent.level : LogEvent → LogLevel
  | .unnamedProject _ => .warning
  | .unnamedRepository _ _ => .warning
  | .emptyActualName _ => .error
  | .nullTag _ _ => .warning
  | .artifactsNotFound _ => .info
  | .artifactsHttp _ _ => .error
  | .artifactsGeneric _ => .error

/-- One entry of the `all_images_with_tags` output list (the tag value
is the raw JSON `name` value appended by the source, or the string
sentinel `"<none>"`). -/
structure ImageRecord where
  repository : String
  tag : Json

/-- Partial traversal outcome: records and log collected so far, and
whether an uncaught exception is propagating (which ends the enclosing
loops). -/
structure TravOut where
  records : List ImageRecord
  log : List LogEvent
  raised : Bool

/-- The repository-name derivation of `get_harbor_images`
(src/harbor_image_api.py lines 97–111): `full_repo_name.split('/', 1)`,
keeping the remainder when the part before the first slash equals the
project name, else falling back to the full name.  `projectName` is the
raw JSON name value; Python's `==` between the split part and a
non-string project name is `False`. -/
def derive_repository_actual_name (full : String) (projectName : Json) : String :=
  match pySplitOnce full '/' with
  | [a, b] => if Json.eqStr projectName a then b else full
  | _ => full

/-- The display repository prefix `HARBOR_URL.replace('https://',
'').replace('http://', '')` of src/harbor_image_api.py line 130. -/
def displayHost (harborUrl : String) : String :=
  pyReplace (pyReplace harborUrl "https://" "") "http://" ""

/-- The `for tag_info in artifact['tags']` loop (src/harbor_image_api.py
lines 125–136): a truthy object entry with a truthy `name` yields one
record; a falsy entry, or an object entry without a truthy `name`, is
skipped with a warning; a truthy non-object entry makes
`tag_info.get('name')` raise (`AttributeError`), abandoning the rest of
the repository's artifacts. -/
def processTagEntries (display full : String) : List Json → TravOut
  | [] => ⟨[], [], false⟩
  | t :: ts =>
    if t.truthy then
      match t with
      | .jobj fields =>
        match jLookup fields "name" with
        | some nameV =>
          if nameV.truthy then
            let rest := processTagEntries display full ts
            ⟨⟨display ++ "/" ++ full, nameV⟩ :: rest.records, rest.log, rest.raised⟩
          else
            let rest := processTagEntries display full ts
            ⟨rest.records, .nullTag full t :: rest.log, rest.raised⟩
        | none =>
          let rest := processTagEntries display full ts
          ⟨rest.records, .nullTag full t :: rest.log, rest.raised⟩
      | _ => ⟨[], [], true⟩
    else
      let rest := processTagEntries display full ts
      ⟨rest.records, .nullTag full t :: rest.log, rest.raised⟩

/-- One artifact (src/harbor_image_api.py lines 124–142): a truthy
`tags` list is iterated; a truthy non-list `tags` raises while being
iterated; an absent or falsy `tags` yields exactly one record with tag
`"<none>"`; a non-object artifact makes `artifact.get` raise. -/
def processArtifact (display full : String) : Json → TravOut
  | .jobj fields =>
    match jLookup fields "tags" with
    | some tagsV =>
      if tagsV.truthy then
        match tagsV with
        | .jarr ts => processTagEntries display full ts
        | _ => ⟨[], [], true⟩
      else ⟨[⟨display ++ "/" ++ full, Json.jstr "<none>"⟩], [], false⟩
    | none => ⟨[⟨display ++ "/" ++ full, Json.jstr "<none>"⟩], [], false⟩
  | _ => ⟨[], [], true⟩

/-- The `for artifact in artifacts` loop: records appended before a
raise are kept; a raise abandons the remaining artifacts. -/
def processArtifacts (display full : String) : List Json → TravOut
  | [] => ⟨[], [], false⟩
  | a :: rest =>
    let o := processArtifact display full a
    if o.raised then o
    else
      let r := processArtifacts display full rest
      ⟨o.records ++ r.records, o.log ++ r.log, r.raised⟩

/-- One repository (src/harbor_image_api.py lines 92–157): an absent or
falsy name is skipped with a warning; a truthy non-string name makes
`full_repo_name.split` raise outside the inner handler; an empty derived
name is skipped with an error; the artifact fetch and the artifact
processing run inside the inner handler, where an `HTTPError` with
status 404 is informational, any other `HTTPError` logs an error, and
every other exception logs a generic error — in all three cases the
repository loop continues. -/
def processRepo (harborUrl : String) (env : HarborEnv) (pn : Json)
    (repo : Json) : TravOut :=
  match repo with
  | .jobj fields =>
    match jLookup fields "name" with
    | none => ⟨[], [.unnamedRepository pn repo], false⟩
    | some fJ =>
      if fJ.truthy then
        match fJ with
        | .jstr full =>
          let actual := derive_repository_actual_name full pn
          if actual = "" then ⟨[], [.emptyActualName full], false⟩
          else
            match env.artifacts pn (quote_plus actual) with
            | .error (.httpStatus 404) => ⟨[], [.artifactsNotFound full], false⟩
            | .error (.httpStatus c) => ⟨[], [.artifactsHttp full c], false⟩
            | .error _ => ⟨[], [.artifactsGeneric full], false⟩
            | .ok arts =>
              let o := processArtifacts (displayHost harborUrl) full arts
              if o.raised then ⟨o.records, o.log ++ [.artifactsGeneric full], false⟩
              else o
        | _ => ⟨[], [], true⟩
      else ⟨[], [.unnamedRepository pn repo], false⟩
  | _ => ⟨[], [], true⟩

/-- The `for repo in repositories` loop; a raise ends it. -/
def processRepos (harborUrl : String) (env : HarborEnv) (pn : Json) :
    List Json → TravOut
  | [] => ⟨[], [], false⟩
  | r :: rest =>
    let o := processRepo harborUrl env pn r
    if o.raised then o
    else
      let rec2 := processRepos harborUrl env pn rest
      ⟨o.records ++ rec2.records, o.log ++ rec2.log, rec2.raised⟩

/-- One project (src/harbor_image_api.py lines 71–157): an absent or
falsy name is skipped with a warning; a failing repositories fetch
raises out of the loop (it is not inside any per-unit handler), as does
a non-object project at `project.get`. -/
def processProject (harborUrl : String) (env : HarborEnv)
    (project : Json) : TravOut :=
  match project with
  | .jobj fields =>
    match jLookup fields "name" with
    | none => ⟨[], [.unnamedProject project], false⟩
    | some nJ =>
      if nJ.truthy then
        match env.repositories nJ with
        | .error _ => ⟨[], [], true⟩
        | .ok repos => processRepos harborUrl env nJ repos
      else ⟨[], [.unnamedProject project], false⟩
  | _ => ⟨[], [], true⟩

/-- The `for project in projects` loop; a raise ends it. -/
def processProjects (harborUrl : String) (env : HarborEnv) :
    List Json → TravOut
  | [] => ⟨[], [], false⟩
  | p :: rest =>
    let o := processProject harborUrl env p
    if o.raised then o
    else
      let rec2 := processProjects harborUrl env rest
      ⟨o.records ++ rec2.records, o.log ++ rec2.log, rec2.raised⟩

/-- The route result: `.ok` is the jsonified image list, `.error ()` the
500 error response produced by the top-level exception handlers. -/
structure HarborImagesResult where
  response : Except Unit (List ImageRecord)
  log : List LogEvent

/-- `get_harbor_images()` (src/harbor_image_api.py lines 55–166): a
failing projects fetch, or any exception escaping the traversal, reaches
the top-level handlers and produces the error response. -/
def get_harbor_images (harborUrl : String) (env : HarborEnv) :
    HarborImagesResult :=
  match env.projects with
  | .error _ => ⟨.error (), []⟩
  | .ok projects =>
    let o := processProjects harborUrl env projects
    if o.raised then ⟨.error (), o.log⟩ else ⟨.ok o.records, o.log⟩

/-- A tag entry the `for tag_info in artifact['tags']` loop skips with a
warning instead of emitting a record: a falsy entry, or an object entry
whose `name` is absent or falsy.  (A truthy non-object entry raises
instead.) -/
def tagSkipped : Json → Bool
  | .jobj fs =>
    match jLookup fs "name" with
    | some v => !v.truthy
    | none => true
  | t => !t.truthy

/-- Registry environment with two projects in which the repositories
fetch of the first project raises a transport exception while the second
project has one repository with one tagged artifact. -/
def envTwoProjectsFirstRepoFetchFails : HarborEnv where
  projects := .ok [Json.jobj [("name", Json.jstr "p1")], Json.jobj [("name", Json.jstr "p2")]]
  repositories := fun j =>
    if Json.eqStr j "p1" then .error .requestErr
    else .ok [Json.jobj [("name", Json.jstr "p2/r")]]
  artifacts := fun _ _ =>
    .ok [Json.jobj [("tags", Json.jarr [Json.jobj [("name", Json.jstr "v")]])]]

/-- The same registry restricted to its healthy second project. -/
def envSecondProjectOnly : HarborEnv where
  projects := .ok [Json.jobj [("name", Json.jstr "p2")]]
  repositories := fun _ => .ok [Json.jobj [("name", Json.jstr "p2/r")]]
  artifacts := fun _ _ =>
    .ok [Json.jobj [("tags", Json.jarr [Json.jobj [("name", Json.jstr "v")]])]]

/-- Registry environment whose single repository holds one artifact with
`tags: [null]` — a non-empty tags list containing only a null entry. -/
def envNullOnlyTag : HarborEnv where
  projects := .ok [Json.jobj [("name", Json.jstr "p")]]
  repositories := fun _ => .ok [Json.jobj [("name", Json.jstr "p/r")]]
  artifacts := fun _ _ =>
    .ok [Json.jobj [("digest", Json.jstr "d"), ("tags", Json.jarr [Json.jnull])]]

/-- Registry environment whose single repository's artifact fetch
returns HTTP 404. -/
def envArtifacts404 : HarborEnv where
  projects := .ok [Json.jobj [("name", Json.jstr "p")]]
  repositories := fun _ => .ok [Json.jobj [("name", Json.jstr "p/r")]]
  artifacts := fun _ _ => .error (.httpStatus 404)

/-- Registry environment whose single repository's artifact fetch raises
a transport exception. -/
def envArtifactsTransportError : HarborEnv where
  projects := .ok [Json.jobj [("name", Json.jstr "p")]]
  repositories := fun _ => .ok [Json.jobj [("name", Json.jstr "p/r")]]
  artifacts := fun _ _ => .error .requestErr

/-! ## Helper lemmas -/

/-- The data-line loop is the `filterMap` of its per-line body. -/
theorem parseDataLines_eq_filterMap (t i s : Nat) (ignored : List String)
    (ls : List String) :
    parseDataLines t i s ignored ls = ls.filterMap (parseLine t i s ignored) := by
  induction ls with
  | nil => rfl
  | cons l rest ih =>
    simp only [parseDataLines, List.filterMap_cons]
    cases parseLine t i s ignored l <;> simp [ih]

/-- A record produced by the per-line body never carries an ignored
image id, and its fields are the trimmed slices of the trimmed line. -/
theorem parseLine_eq_some (t i s : Nat) (ignored : List String)
    (line : String) (r : CrictlImage)
    (h : parseLine t i s ignored line = some r) :
    r.image_id ∉ ignored ∧
      r = ⟨pyStrip (pySliceTo (pyStrip line) t),
           if pyStrip (pySlice (pyStrip line) t i) = "" then "<none>"
           else pyStrip (pySlice (pyStrip line) t i),
           pyStrip (pySlice (pyStrip line) i s),
           pyStrip (pySliceFrom (pyStrip line) s)⟩ := by
  simp only [parseLine] at h
  split at h
  · exact absurd h (by simp)
  · split at h
    · exact absurd h (by simp)
    · rename_i hmem
      cases h
      exact ⟨hmem, rfl⟩

/-! ## Claims about the columnar text parser -/

/-- Claim C7: an input whose line split has fewer than two lines parses
to the empty result; and with a header present, a missing "TAG",
"IMAGE ID" or "SIZE" label, or first-occurrence offsets that are not
strictly increasing in that order, also parse to the empty result. -/
theorem crictl_invalid_header_yields_empty :
    ∀ (output : String) (ignored : List String),
      ((crictlLines output).length < 2 →
        parse_crictl_images_output output ignored = []) ∧
      (∀ header rest, crictlLines output = header :: rest →
        (pyFind header "TAG" = none ∨ pyFind header "IMAGE ID" = none ∨
          pyFind header "SIZE" = none ∨
          (∀ t i s, pyFind header "TAG" = some t →
            pyFind header "IMAGE ID" = some i →
            pyFind header "SIZE" = some s → ¬(t < i ∧ i < s))) →
        parse_crictl_images_output output ignored = []) := by
  intro output ignored
  unfold parse_crictl_images_output
  constructor
  · intro hlen
    cases h : crictlLines output with
    | nil => rfl
    | cons a rest =>
      cases rest with
      | nil => rfl
      | cons b rest2 =>
        rw [h] at hlen
        simp only [List.length_cons] at hlen
        omega
  · intro header rest heq hbad
    rw [heq]
    cases rest with
    | nil => rfl
    | cons l ls =>
      rcases ht : pyFind header "TAG" with _ | t
      · simp [parseFromLines, ht]
      rcases hi : pyFind header "IMAGE ID" with _ | i
      · simp [parseFromLines, ht, hi]
      rcases hs : pyFind header "SIZE" with _ | s
      · simp [parseFromLines, ht, hi, hs]
      rcases hbad with h1 | h2 | h3 | h4
      · rw [ht] at h1; cases h1
      · rw [hi] at h2; cases h2
      · rw [hs] at h3; cases h3
      · simp [parseFromLines, ht, hi, hs, h4 t i s ht hi hs]

/-- Claim C7 witness: a header missing the SIZE label yields an empty
result, and a one-line input yields an empty result. -/
theorem crictl_invalid_header_yields_empty_witness :
    parse_crictl_images_output
      "REPOSITORY   TAG      IMAGE ID\nnginx        latest   abc123       10MB" [] = []
    ∧ parse_crictl_images_output "justoneline" [] = [] :=
  ⟨(crictl_invalid_header_yields_empty
      "REPOSITORY   TAG      IMAGE ID\nnginx        latest   abc123       10MB" []).2
      "REPOSITORY   TAG      IMAGE ID"
      ["nginx        latest   abc123       10MB"]
      (by decide) (Or.inr (Or.inr (Or.inl (by decide)))),
   (crictl_invalid_header_yields_empty "justoneline" []).1 (by decide)⟩

/-- Claim C8: no emitted record carries an image id that is in the
ignore set — a matching row is discarded entirely. -/
theorem crictl_ignored_ids_never_emitted :
    ∀ (output : String) (ignored : List String) (r : CrictlImage),
      r ∈ parse_crictl_images_output output ignored → r.image_id ∉ ignored := by
  intro output ignored r hr
  unfold parse_crictl_images_output at hr
  generalize crictlLines output = lines at hr
  cases lines with
  | nil => simp [parseFromLines] at hr
  | cons header rest =>
    cases rest with
    | nil => simp [parseFromLines] at hr
    | cons l ls =>
      simp only [parseFromLines] at hr
      split at hr
      · split at hr
        · rw [parseDataLines_eq_filterMap] at hr
          obtain ⟨line, _, hpl⟩ := List.mem_filterMap.mp hr
          exact (parseLine_eq_some _ _ _ _ _ _ hpl).1
        · simp at hr
      · simp at hr

/-- Claim C8 witness: the reference row is emitted when its id is not
ignored, and the emitted record's id lies outside the ignore set. -/
theorem crictl_ignored_ids_never_emitted_witness :
    (⟨"nginx", "latest", "abc123", "10MB"⟩ : CrictlImage) ∈
      parse_crictl_images_output
        "REPOSITORY   TAG      IMAGE ID     SIZE\nnginx        latest   abc123       10MB"
        ["zzz"]
    ∧ (⟨"nginx", "latest", "abc123", "10MB"⟩ : CrictlImage).image_id ∉ ["zzz"] :=
  ⟨by decide,
   crictl_ignored_ids_never_emitted
     "REPOSITORY   TAG      IMAGE ID     SIZE\nnginx        latest   abc123       10MB"
     ["zzz"] ⟨"nginx", "latest", "abc123", "10MB"⟩ (by decide)⟩

/-- Claim C9: with a valid header, parsing is the total `filterMap` of
the per-line body over the data lines: a line is skipped exactly when it
is blank after trimming or its sliced identifier is ignored, every other
line yields exactly one record, slicing clamps rather than faulting, and
an empty tag field becomes the sentinel. -/
theorem crictl_data_lines_total :
    ∀ (output : String) (ignored : List String) (header : String)
      (dataLines : List String) (t i s : Nat),
      crictlLines output = header :: dataLines →
      pyFind header "TAG" = some t →
      pyFind header "IMAGE ID" = some i →
      pyFind header "SIZE" = some s →
      t < i → i < s →
      parse_crictl_images_output output ignored
        = dataLines.filterMap (parseLine t i s ignored)
      ∧ (∀ line, (parseLine t i s ignored line).isSome ↔
          (pyStrip line ≠ "" ∧ pyStrip (pySlice (pyStrip line) i s) ∉ ignored))
      ∧ (∀ line r, parseLine t i s ignored line = some r →
          r.tag = if pyStrip (pySlice (pyStrip line) t i) = "" then "<none>"
                  else pyStrip (pySlice (pyStrip line) t i)) := by
  intro output ignored header dataLines t i s heq ht hi hs hti his
  refine ⟨?_, ?_, ?_⟩
  · unfold parse_crictl_images_output
    rw [heq]
    cases dataLines with
    | nil => simp [parseFromLines]
    | cons l ls =>
      simp only [parseFromLines, ht, hi, hs]
      rw [if_pos ⟨hti, his⟩, parseDataLines_eq_filterMap]
  · intro line
    simp only [parseLine]
    by_cases h1 : pyStrip line = ""
    · simp [h1]
    · by_cases h2 : pyStrip (pySlice (pyStrip line) i s) ∈ ignored
      · simp [h1, h2]
      · simp [h1, h2]
  · intro line r h
    rw [(parseLine_eq_some t i s ignored line r h).2]

/-- Claim C9 witness: the reference output parses to the `filterMap` of
the per-line body, a short data line still yields a record, and its
empty tag field becomes the sentinel. -/
theorem crictl_data_lines_total_witness :
    parse_crictl_images_output
      "REPOSITORY   TAG      IMAGE ID     SIZE\nnginx        latest   abc123       10MB\nshort"
      []
    = ["nginx        latest   abc123       10MB", "short"].filterMap
        (parseLine 13 22 35 []) :=
  (crictl_data_lines_total
    "REPOSITORY   TAG      IMAGE ID     SIZE\nnginx        latest   abc123       10MB\nshort"
    [] "REPOSITORY   TAG      IMAGE ID     SIZE"
    ["nginx        latest   abc123       10MB", "short"] 13 22 35
    (by decide) (by decide) (by decide) (by decide) (by decide) (by decide)).1

/-! ## Lemmas about the paginated fetcher -/

/-- A loop result obtained with some fuel is the result for any larger
fuel: the fuel is only a bound on the iterations, not part of the
source's semantics. -/
theorem fetchLoop_mono (server : Nat → HttpResult) (ps : Nat) :
    ∀ (fuel fuel2 page : Nat) (params : Params) (acc : List Json)
      (reqs : List Params) (out : FetchResult),
      fetchLoop server ps fuel page params acc reqs = some out →
      fuel ≤ fuel2 →
      fetchLoop server ps fuel2 page params acc reqs = some out := by
  intro fuel
  induction fuel with
  | zero =>
    intro fuel2 page params acc reqs out h
    cases h
  | succ f ih =>
    intro fuel2 page params acc reqs out h hle
    obtain ⟨g, rfl⟩ : ∃ g, fuel2 = g + 1 := ⟨fuel2 - 1, by omega⟩
    cases hsrv : server page with
    | httpErr =>
      simp only [fetchLoop, hsrv] at h ⊢
      exact h
    | jsonErr =>
      simp only [fetchLoop, hsrv] at h ⊢
      exact h
    | ok body =>
      cases hext : extractItems body with
      | none =>
        simp only [fetchLoop, hsrv, hext] at h ⊢
        exact h
      | some cur =>
        by_cases hlen : cur.length < ps
        · simp only [fetchLoop, hsrv, hext, if_pos hlen] at h ⊢
          exact h
        · simp only [fetchLoop, hsrv, hext, if_neg hlen] at h ⊢
          exact ih g _ _ _ _ _ h (by omega)

/-- Setting a key and looking it up yields the value just set. -/
theorem pLookup_dictSet_eq (d : Params) (k : String) (v : PVal) :
    pLookup (dictSet d k v) k = some v := by
  induction d with
  | nil => simp [dictSet, pLookup]
  | cons kv rest ih =>
    obtain ⟨k', v'⟩ := kv
    by_cases h : k' = k
    · simp [dictSet, h, pLookup]
    · simp [dictSet, h, pLookup, ih]

/-- Setting a key leaves the lookup of every other key unchanged. -/
theorem pLookup_dictSet_ne (d : Params) (k k' : String) (v : PVal)
    (h : k' ≠ k) :
    pLookup (dictSet d k v) k' = pLookup d k' := by
  induction d with
  | nil => simp [dictSet, pLookup, Ne.symm h]
  | cons kv rest ih =>
    obtain ⟨k0, v0⟩ := kv
    by_cases h0 : k0 = k
    · subst h0
      simp [dictSet, pLookup, Ne.symm h]
    · simp only [dictSet, if_neg h0, pLookup]
      split
      · rfl
      · exact ih

/-- The study of the caller's dict through the loop: when the loop
returns, the dict is the one sent on the last request, it holds `page`
and `page_size`, and every other key still has the value it had on
entry. -/
theorem fetchLoop_finalParams (server : Nat → HttpResult) (ps : Nat) :
    ∀ (fuel page : Nat) (params : Params) (acc : List Json)
      (reqs : List Params) (out : FetchResult),
      fetchLoop server ps fuel page params acc reqs = some out →
      out.requests.getLast? = some out.finalParams
      ∧ pLookup out.finalParams "page_size" = some (PVal.pnat ps)
      ∧ (∃ q, pLookup out.finalParams "page" = some (PVal.pnat q))
      ∧ (∀ k, k ≠ "page" → k ≠ "page_size" →
          pLookup out.finalParams k = pLookup params k) := by
  intro fuel
  induction fuel with
  | zero =>
    intro page params acc reqs out h
    cases h
  | succ f ih =>
    intro page params acc reqs out h
    set params2 :=
      dictSet (dictSet params "page" (.pnat page)) "page_size" (.pnat ps)
      with hparams2
    have hlast : (reqs ++ [params2]).getLast? = some params2 := by
      simp
    have hpsz : pLookup params2 "page_size" = some (PVal.pnat ps) := by
      rw [hparams2, pLookup_dictSet_eq]
    have hpage : pLookup params2 "page" = some (PVal.pnat page) := by
      rw [hparams2, pLookup_dictSet_ne _ _ _ _ (by decide), pLookup_dictSet_eq]
    have hother : ∀ k, k ≠ "page" → k ≠ "page_size" →
        pLookup params2 k = pLookup params k := by
      intro k hk1 hk2
      rw [hparams2, pLookup_dictSet_ne _ _ _ _ hk2,
        pLookup_dictSet_ne _ _ _ _ hk1]
    cases hsrv : server page with
    | httpErr =>
      simp only [fetchLoop, hsrv] at h
      cases h
      exact ⟨hlast, hpsz, ⟨page, hpage⟩, hother⟩
    | jsonErr =>
      simp only [fetchLoop, hsrv] at h
      cases h
      exact ⟨hlast, hpsz, ⟨page, hpage⟩, hother⟩
    | ok body =>
      cases hext : extractItems body with
      | none =>
        simp only [fetchLoop, hsrv, hext] at h
        cases h
        exact ⟨hlast, hpsz, ⟨page, hpage⟩, hother⟩
      | some cur =>
        by_cases hlen : cur.length < ps
        · simp only [fetchLoop, hsrv, hext, if_pos hlen] at h
          cases h
          exact ⟨hlast, hpsz, ⟨page, hpage⟩, hother⟩
        · simp only [fetchLoop, hsrv, hext, if_neg hlen] at h
          obtain ⟨h1, h2, h3, h4⟩ := ih (page + 1) params2 (acc ++ cur)
            (reqs ++ [params2]) out h
          refine ⟨h1, h2, h3, ?_⟩
          intro k hk1 hk2
          rw [h4 k hk1 hk2, hother k hk1 hk2]

/-! ## Claims about the paginated fetcher -/

/-- Claim C10: a caller-supplied parameter dict is mutated in place:
after the call returns, it is exactly the dict sent on the last request
issued, it holds the keys `page` and `page_size`, and every other key
the caller supplied is unchanged. -/
theorem fetcher_mutates_caller_params :
    ∀ (server : Nat → HttpResult) (fuel : Nat) (d : Params)
      (out : FetchResult),
      get_harbor_paginated_results server (some d) fuel = some out →
      out.requests.getLast? = some out.finalParams
      ∧ (∃ q, pLookup out.finalParams "page" = some (PVal.pnat q))
      ∧ pLookup out.finalParams "page_size" = some (PVal.pnat 100)
      ∧ (∀ k, k ≠ "page" → k ≠ "page_size" →
          pLookup out.finalParams k = pLookup d k) := by
  intro server fuel d out h
  obtain ⟨h1, h2, h3, h4⟩ :=
    fetchLoop_finalParams server harborApiPageSize fuel 1 d [] [] out h
  exact ⟨h1, h3, h2, h4⟩

/-- Claim C10 witness: a one-page fetch with a caller-supplied
`with_detail` entry leaves that entry unchanged and adds the paging
keys of the one request issued. -/
theorem fetcher_mutates_caller_params_witness :
    (⟨some [], [("with_detail", PVal.pstr "false"), ("page", PVal.pnat 1),
        ("page_size", PVal.pnat 100)],
      [[("with_detail", PVal.pstr "false"), ("page", PVal.pnat 1),
        ("page_size", PVal.pnat 100)]]⟩ : FetchResult).requests.getLast?
        = some (⟨some [], [("with_detail", PVal.pstr "false"), ("page", PVal.pnat 1),
            ("page_size", PVal.pnat 100)],
          [[("with_detail", PVal.pstr "false"), ("page", PVal.pnat 1),
            ("page_size", PVal.pnat 100)]]⟩ : FetchResult).finalParams
    ∧ (∃ q, pLookup (⟨some [], [("with_detail", PVal.pstr "false"), ("page", PVal.pnat 1),
          ("page_size", PVal.pnat 100)],
        [[("with_detail", PVal.pstr "false"), ("page", PVal.pnat 1),
          ("page_size", PVal.pnat 100)]]⟩ : FetchResult).finalParams "page"
        = some (PVal.pnat q))
    ∧ pLookup (⟨some [], [("with_detail", PVal.pstr "false"), ("page", PVal.pnat 1),
          ("page_size", PVal.pnat 100)],
        [[("with_detail", PVal.pstr "false"), ("page", PVal.pnat 1),
          ("page_size", PVal.pnat 100)]]⟩ : FetchResult).finalParams "page_size"
        = some (PVal.pnat 100)
    ∧ (∀ k, k ≠ "page" → k ≠ "page_size" →
        pLookup (⟨some [], [("with_detail", PVal.pstr "false"), ("page", PVal.pnat 1),
            ("page_size", PVal.pnat 100)],
          [[("with_detail", PVal.pstr "false"), ("page", PVal.pnat 1),
            ("page_size", PVal.pnat 100)]]⟩ : FetchResult).finalParams k
          = pLookup [("with_detail", PVal.pstr "false")] k) :=
  fetcher_mutates_caller_params (mkServer [[]]) 1
    [("with_detail", PVal.pstr "false")] _ rfl

/-- Claim C5: four server pages of sizes 100, 100, 100, k with k < 100
yield the concatenation of the four pages in page order after exactly
four requests, each carrying a 1-based incrementing `page` and the fixed
`page_size`; and an empty first page yields zero items after exactly one
request. -/
theorem fetcher_pagination_termination :
    ∀ (p1 p2 p3 p4 : List Json) (k fuel : Nat),
      p1.length = 100 → p2.length = 100 → p3.length = 100 →
      p4.length = k → k < 100 → 4 ≤ fuel →
      get_harbor_paginated_results (mkServer [p1, p2, p3, p4]) none fuel
        = some ⟨some (p1 ++ p2 ++ p3 ++ p4),
            [("page", PVal.pnat 4), ("page_size", PVal.pnat 100)],
            [[("page", PVal.pnat 1), ("page_size", PVal.pnat 100)],
             [("page", PVal.pnat 2), ("page_size", PVal.pnat 100)],
             [("page", PVal.pnat 3), ("page_size", PVal.pnat 100)],
             [("page", PVal.pnat 4), ("page_size", PVal.pnat 100)]]⟩
      ∧ (p1 ++ p2 ++ p3 ++ p4).length = 3 * 100 + k
      ∧ (∀ fuel2, 1 ≤ fuel2 →
          get_harbor_paginated_results (mkServer [[]]) none fuel2
            = some ⟨some [], [("page", PVal.pnat 1), ("page_size", PVal.pnat 100)],
                [[("page", PVal.pnat 1), ("page_size", PVal.pnat 100)]]⟩) := by
  intro p1 p2 p3 p4 k fuel hp1 hp2 hp3 hp4 hk hfuel
  refine ⟨?_, ?_, ?_⟩
  · have h4 : get_harbor_paginated_results (mkServer [p1, p2, p3, p4]) none 4
        = some ⟨some (p1 ++ p2 ++ p3 ++ p4),
            [("page", PVal.pnat 4), ("page_size", PVal.pnat 100)],
            [[("page", PVal.pnat 1), ("page_size", PVal.pnat 100)],
             [("page", PVal.pnat 2), ("page_size", PVal.pnat 100)],
             [("page", PVal.pnat 3), ("page_size", PVal.pnat 100)],
             [("page", PVal.pnat 4), ("page_size", PVal.pnat 100)]]⟩ := by
      simp [get_harbor_paginated_results, fetchLoop, mkServer, extractItems,
        dictSet, harborApiPageSize, List.getD, hp1, hp2, hp3, hp4, hk,
        List.append_assoc]
    unfold get_harbor_paginated_results at h4 ⊢
    exact fetchLoop_mono _ _ 4 fuel _ _ _ _ _ h4 hfuel
  · simp only [List.length_append, hp1, hp2, hp3, hp4]
  · intro fuel2 hf2
    have h1 : get_harbor_paginated_results (mkServer [[]]) none 1
        = some ⟨some [], [("page", PVal.pnat 1), ("page_size", PVal.pnat 100)],
            [[("page", PVal.pnat 1), ("page_size", PVal.pnat 100)]]⟩ := by
      simp [get_harbor_paginated_results, fetchLoop, mkServer, extractItems,
        dictSet, harborApiPageSize, List.getD]
    unfold get_harbor_paginated_results at h1 ⊢
    exact fetchLoop_mono _ _ 1 fuel2 _ _ _ _ _ h1 hf2

/-- Claim C5 witness: concrete pages of sizes 100, 100, 100, 5 yield
exactly 305 items after exactly the four listed requests. -/
theorem fetcher_pagination_termination_witness :
    get_harbor_paginated_results
      (mkServer [List.replicate 100 Json.jnull, List.replicate 100 Json.jnull,
        List.replicate 100 Json.jnull, List.replicate 5 Json.jnull]) none 4
      = some ⟨some (List.replicate 100 Json.jnull ++ List.replicate 100 Json.jnull
            ++ List.replicate 100 Json.jnull ++ List.replicate 5 Json.jnull),
          [("page", PVal.pnat 4), ("page_size", PVal.pnat 100)],
          [[("page", PVal.pnat 1), ("page_size", PVal.pnat 100)],
           [("page", PVal.pnat 2), ("page_size", PVal.pnat 100)],
           [("page", PVal.pnat 3), ("page_size", PVal.pnat 100)],
           [("page", PVal.pnat 4), ("page_size", PVal.pnat 100)]]⟩
    ∧ (List.replicate 100 Json.jnull ++ List.replicate 100 Json.jnull
        ++ List.replicate 100 Json.jnull ++ List.replicate 5 Json.jnull).length
        = 3 * 100 + 5 :=
  ⟨(fetcher_pagination_termination (List.replicate 100 Json.jnull)
      (List.replicate 100 Json.jnull) (List.replicate 100 Json.jnull)
      (List.replicate 5 Json.jnull) 5 4 (by simp) (by simp) (by simp) (by simp)
      (by decide) (by decide)).1,
   (fetcher_pagination_termination (List.replicate 100 Json.jnull)
      (List.replicate 100 Json.jnull) (List.replicate 100 Json.jnull)
      (List.replicate 5 Json.jnull) 5 4 (by simp) (by simp) (by simp) (by simp)
      (by decide) (by decide)).2.1⟩

/-- Claim C4: a body that is neither a sequence nor an object whose
`data` key holds a sequence yields the failure return (`None`), which is
a different value from the successful empty result a first empty page
yields. -/
theorem fetcher_format_violation_fails :
    ∀ (body : Json) (params : Option Params) (fuel : Nat),
      1 ≤ fuel →
      (∀ items, body ≠ Json.jarr items) →
      (∀ fields, body = Json.jobj fields →
        ∀ items, jLookup fields "data" ≠ some (Json.jarr items)) →
      (get_harbor_paginated_results (fun _ => HttpResult.ok body) params fuel).map
          FetchResult.outcome = some none
      ∧ (get_harbor_paginated_results (mkServer []) params fuel).map
          FetchResult.outcome = some (some [])
      ∧ some (none : Option (List Json)) ≠ some (some ([] : List Json)) := by
  intro body params fuel hfuel harr hobj
  obtain ⟨f, rfl⟩ : ∃ f, fuel = f + 1 := ⟨fuel - 1, by omega⟩
  have hext : extractItems body = none := by
    cases body with
    | jarr items => exact absurd rfl (harr items)
    | jobj fields =>
      simp only [extractItems]
      cases hd : jLookup fields "data" with
      | none => rfl
      | some v =>
        cases v with
        | jarr items => exact absurd hd (hobj fields rfl items)
        | jnull => rfl
        | jbool b => rfl
        | jnum n => rfl
        | jstr s => rfl
        | jobj f2 => rfl
    | jnull => rfl
    | jbool b => rfl
    | jnum n => rfl
    | jstr s => rfl
  refine ⟨?_, ?_, by simp⟩
  · simp [get_harbor_paginated_results, fetchLoop, hext]
  · simp [get_harbor_paginated_results, fetchLoop, mkServer, extractItems,
      harborApiPageSize, List.getD]

/-- Claim C4 witness: a bare number body yields the failure return while
an empty first page yields the distinct successful empty result. -/
theorem fetcher_format_violation_fails_witness :
    (get_harbor_paginated_results (fun _ => HttpResult.ok (Json.jnum 7)) none 1).map
        FetchResult.outcome = some none
    ∧ (get_harbor_paginated_results (mkServer []) none 1).map
        FetchResult.outcome = some (some [])
    ∧ some (none : Option (List Json)) ≠ some (some ([] : List Json)) :=
  fetcher_format_violation_fails (Json.jnum 7) none 1 (by decide)
    (fun items h => Json.noConfusion h)
    (fun fields h => Json.noConfusion h)

/-! ## Lemmas about the hierarchical aggregator -/

/-- The repository loop distributes over list append, with an exception
ending the loop early. -/
theorem processRepos_append (hu : String) (env : HarborEnv) (pn : Json)
    (xs ys : List Json) :
    processRepos hu env pn (xs ++ ys)
      = if (processRepos hu env pn xs).raised then processRepos hu env pn xs
        else
          ⟨(processRepos hu env pn xs).records ++ (processRepos hu env pn ys).records,
           (processRepos hu env pn xs).log ++ (processRepos hu env pn ys).log,
           (processRepos hu env pn ys).raised⟩ := by
  induction xs with
  | nil => simp [processRepos]
  | cons x xs ih =>
    by_cases ho : (processRepo hu env pn x).raised
    · simp [processRepos, ho]
    · by_cases hxs : (processRepos hu env pn xs).raised
      · simp [processRepos, ho, hxs, ih]
      · simp [processRepos, ho, hxs, ih, List.append_assoc]

/-- A tag list whose every entry is skipped produces no records, only
one warning per entry. -/
theorem processTagEntries_skipped (display full : String) :
    ∀ (ts : List Json), (∀ t ∈ ts, tagSkipped t = true) →
      processTagEntries display full ts
        = ⟨[], ts.map (fun t => LogEvent.nullTag full t), false⟩ := by
  intro ts
  induction ts with
  | nil => intro _; rfl
  | cons t rest ih =>
    intro h
    have ht : tagSkipped t = true := h t (List.mem_cons_self t rest)
    have hrest := ih (fun u hu => h u (List.mem_cons_of_mem t hu))
    by_cases htr : t.truthy
    · cases t with
      | jobj fs =>
        simp only [tagSkipped] at ht
        cases hn : jLookup fs "name" with
        | none =>
          simp [processTagEntries, htr, hn, hrest]
        | some v =>
          simp only [hn] at ht
          have hv : v.truthy = false := by
            revert ht
            cases v.truthy <;> simp
          simp [processTagEntries, htr, hn, hv, hrest]
      | jnull => simp [Json.truthy] at htr
      | jbool b =>
        simp only [tagSkipped, htr] at ht
        cases ht
      | jnum n =>
        simp only [tagSkipped, htr] at ht
        cases ht
      | jstr s =>
        simp only [tagSkipped, htr] at ht
        cases ht
      | jarr items =>
        simp only [tagSkipped, htr] at ht
        cases ht
    · have htr2 : t.truthy = false := by
        cases hb : t.truthy
        · rfl
        · exact absurd hb htr
      cases t <;> simp [processTagEntries, htr2, hrest]

/-- Splitting at the first separator returns the parts around its first
occurrence. -/
theorem splitFirstAux_append (sep : Char) :
    ∀ (a b : List Char), sep ∉ a →
      splitFirstAux (a ++ sep :: b) sep = some (a, b) := by
  intro a
  induction a with
  | nil => intro b _; simp [splitFirstAux]
  | cons c cs ih =>
    intro b h
    have hc : ¬(c = sep) := fun hh => h (hh ▸ List.mem_cons_self c cs)
    have hcs : sep ∉ cs := fun hh => h (List.mem_cons_of_mem c hh)
    simp [splitFirstAux, hc, ih b hcs]

/-- A successful split reassembles the input around the separator. -/
theorem splitFirstAux_eq_some (sep : Char) :
    ∀ (cs a b : List Char), splitFirstAux cs sep = some (a, b) →
      cs = a ++ sep :: b := by
  intro cs
  induction cs with
  | nil => intro a b h; cases h
  | cons c rest ih =>
    intro a b h
    by_cases hc : c = sep
    · simp only [splitFirstAux, if_pos hc] at h
      cases h
      simp [hc]
    · simp only [splitFirstAux, if_neg hc, Option.map_eq_some'] at h
      obtain ⟨⟨p1, p2⟩, hp, heq⟩ := h
      cases heq
      simp [ih p1 p2 hp]

/-- A list is a Boolean prefix of itself followed by anything. -/
theorem isPrefixOf_append_self (l m : List Char) :
    l.isPrefixOf (l ++ m) = true := by
  induction l with
  | nil => simp [List.isPrefixOf]
  | cons c cs ih => simp [List.isPrefixOf, ih]

/-! ## Claims about the hierarchical aggregator -/

/-- Claim C1 counterexample: with the top-level project listing
succeeding and the repository fetch of the first project failing, the
aggregator returns the error response — it aborts the whole traversal
and loses the second project's records, which the same registry yields
when the failing project is absent. -/
theorem aggregator_repo_fetch_failure_aborts :
    (get_harbor_images "https://h" envTwoProjectsFirstRepoFetchFails).response
      = Except.error ()
    ∧ (get_harbor_images "https://h" envSecondProjectOnly).response
      = Except.ok [⟨"h/p2/r", Json.jstr "v"⟩] :=
  ⟨rfl, rfl⟩

/-- Claim C1 amended: a failure of the artifact-collection fetch for one
repository is contained — the aggregator logs it at error level against
that repository and still collects the sibling repositories' records —
but a failure of the repository-collection fetch for a project is not
contained: it aborts the whole traversal with the error response. -/
theorem aggregator_failure_containment :
    (∀ (hu : String) (env : HarborEnv) (pn : Json) (rs1 rs2 : List Json)
        (fields : List (String × Json)) (full : String),
      jLookup fields "name" = some (Json.jstr full) →
      full ≠ "" →
      derive_repository_actual_name full pn ≠ "" →
      env.artifacts pn (quote_plus (derive_repository_actual_name full pn))
        = .error .requestErr →
      (processRepos hu env pn rs1).raised = false →
      processRepo hu env pn (Json.jobj fields)
        = ⟨[], [.artifactsGeneric full], false⟩
      ∧ (LogEvent.artifactsGeneric full).level = .error
      ∧ processRepos hu env pn (rs1 ++ Json.jobj fields :: rs2)
          = ⟨(processRepos hu env pn rs1).records
                ++ (processRepos hu env pn rs2).records,
             (processRepos hu env pn rs1).log
                ++ .artifactsGeneric full :: (processRepos hu env pn rs2).log,
             (processRepos hu env pn rs2).raised⟩)
    ∧ (∀ (hu : String) (env : HarborEnv) (p : Json) (ps2 : List Json)
        (fields : List (String × Json)) (nJ : Json) (e : FetchExc),
      env.projects = .ok (p :: ps2) →
      p = Json.jobj fields →
      jLookup fields "name" = some nJ →
      nJ.truthy = true →
      env.repositories nJ = .error e →
      (get_harbor_images hu env).response = Except.error ()) := by
  constructor
  · intro hu env pn rs1 rs2 fields full hname hfull hderive hart hrs1
    have htr : (Json.jstr full).truthy = true := by
      simp [Json.truthy, hfull]
    have hrepo : processRepo hu env pn (Json.jobj fields)
        = ⟨[], [.artifactsGeneric full], false⟩ := by
      simp [processRepo, hname, htr, hderive, hart]
    refine ⟨hrepo, rfl, ?_⟩
    rw [processRepos_append, if_neg (by rw [hrs1]; exact Bool.false_ne_true)]
    have hcons : processRepos hu env pn (Json.jobj fields :: rs2)
        = ⟨(processRepos hu env pn rs2).records,
           .artifactsGeneric full :: (processRepos hu env pn rs2).log,
           (processRepos hu env pn rs2).raised⟩ := by
      simp [processRepos, hrepo]
    rw [hcons]
  · intro hu env p ps2 fields nJ e hproj hp hname htr hrepos
    subst hp
    simp [get_harbor_images, hproj, processProjects, processProject,
      hname, htr, hrepos]

/-- Claim C1 amended witness: a transport failure on the single
repository's artifact fetch is contained with one error-level log
entry, while a repository-fetch failure on the first of two projects
yields the error response. -/
theorem aggregator_failure_containment_witness :
    processRepo "https://h" envArtifactsTransportError (Json.jstr "p")
      (Json.jobj [("name", Json.jstr "p/r")])
      = ⟨[], [.artifactsGeneric "p/r"], false⟩
    ∧ (get_harbor_images "https://h" envTwoProjectsFirstRepoFetchFails).response
      = Except.error () :=
  ⟨(aggregator_failure_containment.1 "https://h" envArtifactsTransportError
      (Json.jstr "p") [] [] [("name", Json.jstr "p/r")] "p/r"
      rfl (by decide) (by decide) rfl rfl).1,
   aggregator_failure_containment.2 "https://h" envTwoProjectsFirstRepoFetchFails
     (Json.jobj [("name", Json.jstr "p1")]) [Json.jobj [("name", Json.jstr "p2")]]
     [("name", Json.jstr "p1")] (Json.jstr "p1") .requestErr
     rfl rfl rfl (by decide) rfl⟩

/-- Claim C3: a repository whose artifact fetch returns HTTP 404
contributes zero records and only one informational log entry (no
error-level failure), and the traversal continues with the remaining
repositories. -/
theorem aggregator_404_is_benign :
    ∀ (hu : String) (env : HarborEnv) (pn : Json) (rs1 rs2 : List Json)
      (fields : List (String × Json)) (full : String),
      jLookup fields "name" = some (Json.jstr full) →
      full ≠ "" →
      derive_repository_actual_name full pn ≠ "" →
      env.artifacts pn (quote_plus (derive_repository_actual_name full pn))
        = .error (.httpStatus 404) →
      (processRepos hu env pn rs1).raised = false →
      processRepo hu env pn (Json.jobj fields)
        = ⟨[], [.artifactsNotFound full], false⟩
      ∧ (LogEvent.artifactsNotFound full).level = .info
      ∧ processRepos hu env pn (rs1 ++ Json.jobj fields :: rs2)
          = ⟨(processRepos hu env pn rs1).records
                ++ (processRepos hu env pn rs2).records,
             (processRepos hu env pn rs1).log
                ++ .artifactsNotFound full :: (processRepos hu env pn rs2).log,
             (processRepos hu env pn rs2).raised⟩ := by
  intro hu env pn rs1 rs2 fields full hname hfull hderive hart hrs1
  have htr : (Json.jstr full).truthy = true := by
    simp [Json.truthy, hfull]
  have hrepo : processRepo hu env pn (Json.jobj fields)
      = ⟨[], [.artifactsNotFound full], false⟩ := by
    simp [processRepo, hname, htr, hderive, hart]
  refine ⟨hrepo, rfl, ?_⟩
  rw [processRepos_append, if_neg (by rw [hrs1]; exact Bool.false_ne_true)]
  have hcons : processRepos hu env pn (Json.jobj fields :: rs2)
      = ⟨(processRepos hu env pn rs2).records,
         .artifactsNotFound full :: (processRepos hu env pn rs2).log,
         (processRepos hu env pn rs2).raised⟩ := by
    simp [processRepos, hrepo]
  rw [hcons]

/-- Claim C3 witness: the single repository of `envArtifacts404`
contributes zero records and one informational entry. -/
theorem aggregator_404_is_benign_witness :
    processRepo "https://h" envArtifacts404 (Json.jstr "p")
      (Json.jobj [("name", Json.jstr "p/r")])
      = ⟨[], [.artifactsNotFound "p/r"], false⟩
    ∧ (LogEvent.artifactsNotFound "p/r").level = .info :=
  ⟨(aggregator_404_is_benign "https://h" envArtifacts404 (Json.jstr "p") [] []
      [("name", Json.jstr "p/r")] "p/r" rfl (by decide) (by decide) rfl rfl).1,
   (aggregator_404_is_benign "https://h" envArtifacts404 (Json.jstr "p") [] []
      [("name", Json.jstr "p/r")] "p/r" rfl (by decide) (by decide) rfl rfl).2.1⟩

/-- Claim C2 counterexample: an artifact whose `tags` list is non-empty
but contains only a null entry yields zero records — not one record with
the `"<none>"` sentinel — because the truthy tags list takes the
per-tag branch, which skips the null entry with a warning. -/
theorem untagged_artifact_sentinel_counterexample :
    get_harbor_images "https://h" envNullOnlyTag
      = ⟨Except.ok [], [.nullTag "p/r" Json.jnull]⟩ :=
  rfl

/-- Claim C2 amended: an artifact whose `tags` key is absent or falsy
(empty list, null, and so on) yields exactly one record with the
`"<none>"` sentinel; an artifact with a non-empty tags list whose every
entry is null or unnamed yields zero records, one warning per entry. -/
theorem untagged_artifact_sentinel :
    ∀ (display full : String) (fields : List (String × Json)),
      ((jLookup fields "tags" = none
          ∨ (∃ v, jLookup fields "tags" = some v ∧ v.truthy = false)) →
        processArtifact display full (Json.jobj fields)
          = ⟨[⟨display ++ "/" ++ full, Json.jstr "<none>"⟩], [], false⟩)
      ∧ (∀ ts, jLookup fields "tags" = some (Json.jarr ts) → ts ≠ [] →
          (∀ t ∈ ts, tagSkipped t = true) →
          processArtifact display full (Json.jobj fields)
            = ⟨[], ts.map (fun t => LogEvent.nullTag full t), false⟩) := by
  intro display full fields
  constructor
  · intro h
    rcases h with h | ⟨v, hv, hvf⟩
    · simp [processArtifact, h]
    · simp [processArtifact, hv, hvf]
  · intro ts hts hne hall
    have htr : (Json.jarr ts).truthy = true := by
      simp [Json.truthy, hne]
    simp [processArtifact, hts, htr, processTagEntries_skipped display full ts hall]

/-- Claim C2 amended witness: an empty tags list yields one sentinel
record; a tags list holding only a null entry yields zero records and
one warning. -/
theorem untagged_artifact_sentinel_witness :
    processArtifact "h" "p/r" (Json.jobj [("tags", Json.jarr [])])
      = ⟨[⟨"h" ++ "/" ++ "p/r", Json.jstr "<none>"⟩], [], false⟩
    ∧ processArtifact "h" "p/r" (Json.jobj [("tags", Json.jarr [Json.jnull])])
      = ⟨[], [Json.jnull].map (fun t => LogEvent.nullTag "p/r" t), false⟩ :=
  ⟨(untagged_artifact_sentinel "h" "p/r" [("tags", Json.jarr [])]).1
     (Or.inr ⟨Json.jarr [], rfl, rfl⟩),
   (untagged_artifact_sentinel "h" "p/r" [("tags", Json.jarr [Json.jnull])]).2
     [Json.jnull] rfl (by simp)
     (by
       intro t ht
       rw [List.mem_singleton] at ht
       subst ht
       rfl)⟩

/-- Claim C6 counterexample: a repository name that does start with the
exact `"{project}/"` prefix is nevertheless not stripped when the
project name itself contains a slash, because the source splits at the
first slash only: under project `"a/b"`, the name `"a/b/c"` derives the
full name `"a/b/c"`, not the stripped `"c"`. -/
theorem repo_name_derivation_counterexample :
    ("a/b/c" : String) = "a/b" ++ "/" ++ "c"
    ∧ derive_repository_actual_name "a/b/c" (Json.jstr "a/b") = "a/b/c"
    ∧ ("a/b/c" : String) ≠ "c" := by
  refine ⟨by decide, by decide, by decide⟩

/-- Claim C6 amended: the derived segment comes from splitting the full
name at its first slash — when the part before that slash equals the
project name (in particular whenever the project name contains no slash
and the full name starts with `"{project}/"`), the remainder is the
segment; when the full name does not start with `"{project}/"`, the
full name is used verbatim; the segment is then `quote_plus`-encoded
before use in the artifact fetch (see `processRepo`). -/
theorem repo_name_derivation :
    ∀ (full proj rest : String),
      (('/' ∉ proj.toList) → full = proj ++ "/" ++ rest →
        derive_repository_actual_name full (Json.jstr proj) = rest)
      ∧ ((proj ++ "/").toList.isPrefixOf full.toList = false →
        derive_repository_actual_name full (Json.jstr proj) = full) := by
  intro full proj rest
  constructor
  · intro hslash heq
    subst heq
    have h2 : '/' ∉ proj.data := hslash
    have hsplit2 : splitFirstAux (proj.data ++ '/' :: rest.data) '/'
        = some (proj.data, rest.data) :=
      splitFirstAux_append '/' proj.data rest.data h2
    simp [derive_repository_actual_name, pySplitOnce, hsplit2, Json.eqStr]
  · intro hpre
    cases hsp : splitFirstAux full.toList '/' with
    | none =>
      have hsp2 : splitFirstAux full.data '/' = none := hsp
      simp [derive_repository_actual_name, pySplitOnce, hsp2]
    | some ab =>
      obtain ⟨a, b⟩ := ab
      have hsp2 : splitFirstAux full.data '/' = some (a, b) := hsp
      have hfull : full.toList = a ++ '/' :: b := splitFirstAux_eq_some '/' _ a b hsp
      have hne : Json.eqStr (Json.jstr proj) (String.mk a) = false := by
        by_cases hpa : proj = String.mk a
        · exfalso
          have hptrue : (proj ++ "/").toList.isPrefixOf full.toList = true := by
            have e1 : (proj ++ "/").toList = a ++ ['/'] := by
              rw [hpa]
              simp
            have e2 : full.toList = (a ++ ['/']) ++ b := by
              rw [hfull]
              simp
            rw [e1, e2]
            exact isPrefixOf_append_self (a ++ ['/']) b
          rw [hpre] at hptrue
          cases hptrue
        · simp [Json.eqStr, hpa]
      simp [derive_repository_actual_name, pySplitOnce, hsp2, hne]

/-- Claim C6 amended witness: the spec's two reference cases — a
slash-free project with a matching prefix strips it; a mismatching
prefix falls back to the full name. -/
theorem repo_name_derivation_witness :
    derive_repository_actual_name "myproj/sub/app" (Json.jstr "myproj") = "sub/app"
    ∧ derive_repository_actual_name "other/app" (Json.jstr "myproj") = "other/app" :=
  ⟨(repo_name_derivation "myproj/sub/app" "myproj" "sub/app").1
     (by decide) (by decide),
   (repo_name_derivation "other/app" "myproj" "x").2 (by decide)⟩

end ClusterImages
